import Mathlib

/-!
Verification development for the transcription orchestration core of
supernote-utils: the provider adapters (`providers/anthropic.py`,
`providers/google.py`, `providers/ollama.py`, `providers/base.py`), the
batching/fallback engine (`core/transcriber.py`), the text post-processing
helpers (`core/image_processor.py`), the configuration validation
(`config.py`) and the CLI option collapsing (`cli/transcribe.py`,
`sources/factory.py`).  Python functions are shallowly embedded as Lean
functions; exceptions become `Except`, and provider network calls are
abstracted as deterministic oracle functions whose invocations are logged
in a call trace.
-/

set_option autoImplicit false

namespace SupernoteUtils

/-- A PIL image, abstracted to the attributes the orchestration core reads:
pixel width and pixel height. -/
structure Img where
  width : Nat
  height : Nat
deriving DecidableEq, Repr

/-- The exception values raised by the embedded code: `ValueError` from
validation and `ProviderAPIError` from provider adapters. -/
inductive PyErr where
  | valueError (msg : String)
  | apiError (msg : String)
deriving DecidableEq, Repr

/-- One provider invocation made by the transcription engine: either a
single-page `transcribe_image` call or a multi-page
`transcribe_images_batch` call. -/
inductive Call where
  | single (img : Img)
  | batch (imgs : List Img)
deriving DecidableEq, Repr

/-! ### `core/image_processor.py` -/

/-- Python `str.strip()` whitespace predicate (ASCII whitespace). -/
def isPyWhitespace (c : Char) : Bool :=
  c = ' ' || c = '\t' || c = '\n' || c = '\x0d' || c = '\x0b' || c = '\x0c'

/-- Python `text.strip()`: remove leading and trailing whitespace. -/
def pyStrip (s : String) : String :=
  ⟨((s.data.dropWhile isPyWhitespace).reverse.dropWhile isPyWhitespace).reverse⟩

/-- Shared core of `strip_markdown_code_blocks`: given that the text starts
with a fence opener of `p` characters (including its newline), remove the
wrapper if the text ends with a closing fence.  Mirrors
`re.match(r"^```(?:markdown)?\n(.*?)\n```$", text, re.DOTALL)` where `$`
matches at the end of the string or just before one final newline. -/
def stripCodeBlockCore (p : Nat) (text : String) : String :=
  if "\n```".data.isSuffixOf text.data && p + 4 ≤ text.length then
    ⟨(text.data.drop p).take (text.length - 4 - p)⟩
  else if "\n```\n".data.isSuffixOf text.data && p + 5 ≤ text.length then
    ⟨(text.data.drop p).take (text.length - 5 - p)⟩
  else text

/-- Model of `ImageProcessor.strip_markdown_code_blocks`: remove a markdown code
block wrapper ("```markdown" or "```") enclosing the whole response. -/
def strip_markdown_code_blocks (text : String) : String :=
  if "```markdown\n".data.isPrefixOf text.data then
    stripCodeBlockCore 12 text
  else if "```\n".data.isPrefixOf text.data then
    stripCodeBlockCore 4 text
  else text

/-- Non-greedy search for the next occurrence of delimiter `d` in `l`:
returns the text before the first occurrence and the text after it, and
fails upon reaching a newline first.  Models the `(.*?)\1` part of the
`re.sub` patterns, which are compiled without `re.DOTALL`, so `.` does not
match a newline and the inner text of a pair cannot span one. -/
def findClose (d : List Char) : List Char → Option (List Char × List Char)
  | [] => none
  | c :: cs =>
    if d.isPrefixOf (c :: cs) then some ([], (c :: cs).drop d.length)
    else if c = '\n' then none
    else
      match findClose d cs with
      | some (x, r) => some (c :: x, r)
      | none => none

/-- One `re.sub(r"(d1|d2)(.*?)\1", r"\2", ·)` pass: scan left to right; at
each position try the delimiters in order; on a matched pair emit the inner
text and continue after the closing delimiter; otherwise keep the character.
`fuel` bounds the recursion and any `fuel ≥ length` gives the same result. -/
def subPairsGo (ds : List (List Char)) : Nat → List Char → List Char
  | 0, s => s
  | _ + 1, [] => []
  | fuel + 1, c :: cs =>
    match ds.find? (fun d => d.isPrefixOf (c :: cs)) with
    | some d =>
      match findClose d ((c :: cs).drop d.length) with
      | some (x, r) => x ++ subPairsGo ds fuel r
      | none => c :: subPairsGo ds fuel cs
    | none => c :: subPairsGo ds fuel cs

/-- One paired-delimiter removal pass over a string. -/
def subPairs (ds : List (List Char)) (s : List Char) : List Char :=
  subPairsGo ds s.length s

/-- Model of `ImageProcessor.strip_markdown_formatting`: remove highlight
(`==...==`), bold (`**...**` / `__...__`) and italic (`*...*` / `_..._`)
markdown delimiters, in that order of passes. -/
def strip_markdown_formatting (text : String) : String :=
  ⟨subPairs [['*'], ['_']]
    (subPairs [['*', '*'], ['_', '_']]
      (subPairs [['=', '=']] text.data))⟩

/-- Index-carrying loop of `ImageProcessor.validate_images`. -/
def validateImagesGo (i : Nat) : List Img → Except PyErr Unit
  | [] => .ok ()
  | img :: rest =>
    if img.width = 0 || img.height = 0 then
      .error (.valueError ("Image " ++ toString i ++ " has zero dimensions"))
    else validateImagesGo (i + 1) rest

/-- Model of `ImageProcessor.validate_images`: reject an empty list or any image
with a zero dimension, before any provider call is made. -/
def validate_images (images : List Img) : Except PyErr Unit :=
  if images.isEmpty then
    .error (.valueError "No images provided for processing")
  else validateImagesGo 0 images

/-! ### `config.py` -/

/-- The `TranscriptionConfig` data, with `temperature` embedded as a rational. -/
structure TranscriptionConfig where
  temperature : ℚ
  page_separator : Bool
  additional_prompt : String
  batch_size : Int
deriving DecidableEq, Repr

/-- Construction of a `TranscriptionConfig`, including `__post_init__`
validation: temperature must lie in [0.0, 2.0] and batch size must be at
least 1; otherwise a `ValueError` is raised and no instance is produced. -/
def mkTranscriptionConfig (t : ℚ) (ps : Bool) (ap : String) (bs : Int) :
    Except PyErr TranscriptionConfig :=
  if ¬ (0 ≤ t ∧ t ≤ 2) then
    .error (.valueError ("Temperature must be between 0.0 and 2.0, got " ++ toString t))
  else if bs < 1 then
    .error (.valueError ("Batch size must be at least 1, got " ++ toString bs))
  else .ok ⟨t, ps, ap, bs⟩

/-! ### `core/transcriber.py` — the batching & fallback engine

A provider is a pair of deterministic oracle functions, one per abstract
method of `VisionProvider`.  Engine functions return the trace of provider
calls they made (in order) together with the raised-or-returned value. -/

/-- The provider abstraction used by `Transcriber`: `transcribe_image` and
`transcribe_images_batch` as deterministic oracles. -/
structure Provider where
  single : Img → Except PyErr String
  batch : List Img → Except PyErr String

/-- The line `if plain_text: text = ImageProcessor.strip_markdown_formatting(text)`. -/
def plainize (plain : Bool) (t : String) : String :=
  if plain then strip_markdown_formatting t else t

/-- Model of `Transcriber._transcribe_single_page`: one provider call followed by
code-block stripping. -/
def transcribe_single_page (p : Provider) (img : Img) :
    List Call × Except PyErr String :=
  ([Call.single img], (p.single img).map strip_markdown_code_blocks)

/-- Model of `Transcriber._transcribe_batch`: a single-image group delegates to the
single-page call; a multi-image group makes one batch provider call and
strips a code-block wrapper from the result. -/
def transcribe_batch (p : Provider) (imgs : List Img) :
    List Call × Except PyErr String :=
  match imgs with
  | [img] => transcribe_single_page p img
  | _ => ([Call.batch imgs], (p.batch imgs).map strip_markdown_code_blocks)

/-- Model of `Transcriber._transcribe_batch_fallback`: transcribe each image of the
group individually (`zip(batch_images, page_nums)` drives the loop), strip
each part, and join with a blank line. -/
def transcribe_batch_fallback (p : Provider) :
    List Img → List Nat → List Call × Except PyErr (List String)
  | [], _ => ([], .ok [])
  | _ :: _, [] => ([], .ok [])
  | img :: imgs, _ :: ns =>
    match transcribe_single_page p img with
    | (c, .error e) => (c, .error e)
    | (c, .ok t) =>
      match transcribe_batch_fallback p imgs ns with
      | (cs, rs) => (c ++ cs, rs.map (fun l => pyStrip t :: l))

/-- Python `"\n\n".join` (and `sep.join` generally). -/
def joinSep (sep : String) : List String → String
  | [] => ""
  | [x] => x
  | x :: y :: xs => x ++ sep ++ joinSep sep (y :: xs)

/-- One group of `Transcriber._transcribe_with_batching`: try the batch
path; on any error fall back to per-page transcription joined by blank
lines.  An error inside the fallback propagates. -/
def processGroup (p : Provider) (imgs : List Img) (pnums : List Nat) :
    List Call × Except PyErr String :=
  match transcribe_batch p imgs with
  | (c, .ok t) => (c, .ok t)
  | (c, .error _) =>
    match transcribe_batch_fallback p imgs pnums with
    | (c2, r2) => (c ++ c2, r2.map (joinSep "\n\n"))

/-- The loop body of `_transcribe_with_batching` over the group list: each
group result is optionally plain-text stripped and then trimmed, exactly as
both sink branches do, yielding the ordered block list. -/
def processGroups (p : Provider) (plain : Bool) :
    List (List Img × List Nat) → List Call × Except PyErr (List (String × List Nat))
  | [] => ([], .ok [])
  | (imgs, pnums) :: rest =>
    match processGroup p imgs pnums with
    | (c, .error e) => (c, .error e)
    | (c, .ok t) =>
      match processGroups p plain rest with
      | (cs, rs) => (c ++ cs, rs.map (fun bs => (pyStrip (plainize plain t), pnums) :: bs))

/-- The slicing loop `for batch_start in range(0, len(images), k)` with
`images[batch_start:batch_end]`: contiguous chunks of size `k` (the final
chunk may be shorter).  `fuel ≥ length` makes the result fuel-independent
when `1 ≤ k`. -/
def chunkListGo {α : Type} (k : Nat) : Nat → List α → List (List α)
  | 0, _ => []
  | _ + 1, [] => []
  | fuel + 1, a :: as => (a :: as).take k :: chunkListGo k fuel ((a :: as).drop k)

/-- The partition the engine makes: contiguous groups of `k`. -/
def chunkList {α : Type} (k : Nat) (l : List α) : List (List α) :=
  chunkListGo k l.length l

/-- The groups `_transcribe_with_batching` processes: image slices paired
with their 1-based page-number ranges
(`batch_page_nums = list(range(batch_start + 1, batch_end + 1))`). -/
def batchGroups (k : Nat) (images : List Img) : List (List Img × List Nat) :=
  (chunkList k images).zip (chunkList k (List.range' 1 images.length))

/-- The page marker line written by the stream sink: a single page number
for a one-page group, a page range for a larger group. -/
def pageMarker (pnums : List Nat) : String :=
  match pnums with
  | [n] => "---- Page " ++ toString n ++ " ----\n"
  | _ =>
    "---- Pages " ++ toString (pnums.headD 0) ++ "-" ++
      toString (pnums.getLastD 0) ++ " ----\n"

/-- The stream-sink rendering of the block list in
`_transcribe_with_batching`: a blank line before every block but the first,
then the optional page-range marker, then the trimmed block text. -/
def renderBlocks (pageSep : Bool) : Bool → List (String × List Nat) → String
  | _, [] => ""
  | isFirst, (t, pnums) :: rest =>
    (if isFirst then "" else "\n\n") ++ (if pageSep then pageMarker pnums else "") ++
      t ++ renderBlocks pageSep false rest

/-- The per-page loop of `_transcribe_single_pages`, producing the ordered
trimmed page blocks (identical in both sink modes). -/
def singlePagesParts (p : Provider) (plain : Bool) :
    List Img → List Call × Except PyErr (List String)
  | [] => ([], .ok [])
  | img :: rest =>
    match transcribe_single_page p img with
    | (c, .error e) => (c, .error e)
    | (c, .ok t) =>
      match singlePagesParts p plain rest with
      | (cs, rs) => (c ++ cs, rs.map (fun l => pyStrip (plainize plain t) :: l))

/-- The stream-sink rendering of `_transcribe_single_pages`: pages are
numbered from 1, a blank line precedes every page but the first, and an
optional `---- Page i ----` marker precedes each page text. -/
def renderSingles (pageSep : Bool) : Nat → List String → String
  | _, [] => ""
  | i, t :: rest =>
    (if 1 < i then "\n\n" else "") ++
      (if pageSep then "---- Page " ++ toString i ++ " ----\n" else "") ++
      t ++ renderSingles pageSep (i + 1) rest

/-- Model of `Transcriber.transcribe_images` with `output=None` (accumulate-into-
string sink): validate, then batch or single-page processing, returning the
provider-call trace and the final string. -/
def transcribe_images_str (p : Provider) (k : Nat) (pageSep plain : Bool)
    (images : List Img) : List Call × Except PyErr String :=
  match validate_images images with
  | .error e => ([], .error e)
  | .ok _ =>
    if 1 < k then
      match processGroups p plain (batchGroups k images) with
      | (c, r) => (c, r.map (fun bs => joinSep "\n\n" (bs.map Prod.fst)))
    else
      match singlePagesParts p plain images with
      | (c, r) => (c, r.map (joinSep "\n\n"))

/-- Model of `Transcriber.transcribe_images` with an output stream (incremental
sink): the returned string is the total text written to the stream on
success, including separator markers and the final trailing newline. -/
def transcribe_images_stream (p : Provider) (k : Nat) (pageSep plain : Bool)
    (images : List Img) : List Call × Except PyErr String :=
  match validate_images images with
  | .error e => ([], .error e)
  | .ok _ =>
    if 1 < k then
      match processGroups p plain (batchGroups k images) with
      | (c, r) => (c, r.map (fun bs => renderBlocks pageSep true bs ++ "\n"))
    else
      match singlePagesParts p plain images with
      | (c, r) => (c, r.map (fun parts => renderSingles pageSep 1 parts ++ "\n"))

/-! ### `providers/anthropic.py` — the Anthropic adapter

A backend call is `client.messages.create` with one user message whose
content is a list of blocks; the response carries content block texts and a
`stop_reason` string.  The adapter functions return the list of backend
requests they issued together with the result. -/

/-- One content block of an Anthropic message: a text block or a base64
image block (the encoded image abstracted by the image itself). -/
inductive ABlock where
  | text (s : String)
  | image (img : Img)
deriving DecidableEq, Repr

/-- An Anthropic API response: the texts of the content blocks and the
`stop_reason` metadata. -/
structure AResp where
  content : List String
  stop : String
deriving DecidableEq, Repr

/-- The image of an Anthropic content block, if any. -/
def ablockImage : ABlock → Option Img
  | .image i => some i
  | .text _ => none

/-- The `str(e)` rendering of an embedded exception. -/
def errStr : PyErr → String
  | .valueError m => m
  | .apiError m => m

/-- Shared response handling of the Anthropic adapter:
`return response.content[0].text` inside `try`, with any exception wrapped
into `ProviderAPIError("Anthropic API error: ...")`.  The `stop_reason`
field is never inspected. -/
def anthropicHandle (r : Except PyErr AResp) : Except PyErr String :=
  match r with
  | .error e => .error (.apiError ("Anthropic API error: " ++ errStr e))
  | .ok resp =>
    match resp.content with
    | [] => .error (.apiError "Anthropic API error: list index out of range")
    | t :: _ => .ok t

/-- Model of `AnthropicProvider.transcribe_image`: one backend call whose content is
the prompt block followed by the single image block. -/
def anthropic_transcribe_image (bk : List ABlock → Except PyErr AResp)
    (img : Img) (prompt : String) : List (List ABlock) × Except PyErr String :=
  let content := [ABlock.text prompt, ABlock.image img]
  ([content], anthropicHandle (bk content))

/-- Model of `AnthropicProvider.transcribe_images_batch`: builds one content array
holding the prompt and every image, and issues a single backend call. -/
def anthropic_transcribe_images_batch (bk : List ABlock → Except PyErr AResp)
    (imgs : List Img) (prompt : String) : List (List ABlock) × Except PyErr String :=
  let content := ABlock.text prompt :: imgs.map ABlock.image
  ([content], anthropicHandle (bk content))

/-! ### `providers/ollama.py` — the Ollama adapter -/

/-- One Ollama chat message: prompt text plus attached image payloads. -/
structure OMsg where
  content : String
  images : List Img
deriving DecidableEq, Repr

/-- Model of `OllamaProvider.transcribe_images_batch`: one `ollama.chat` call whose
message carries all the images; any failure is wrapped into
`ProviderAPIError("Ollama API error: ...")`. -/
def ollama_transcribe_images_batch (bk : OMsg → Except PyErr String)
    (imgs : List Img) (prompt : String) : List OMsg × Except PyErr String :=
  let msg : OMsg := ⟨prompt, imgs⟩
  ([msg],
   match bk msg with
   | .error e => .error (.apiError ("Ollama API error: " ++ errStr e))
   | .ok t => .ok t)

/-! ### `providers/google.py` — the Google Gemini adapter -/

/-- A Gemini response: the finish reasons of its candidates (integers:
0=UNSPECIFIED, 1=STOP, 2=MAX_TOKENS, 3=SAFETY, 4=RECITATION, 5=OTHER) and
the response text. -/
structure GResp where
  candidates : List Nat
  text : String
deriving DecidableEq, Repr

/-- The error message the Google adapter raises for `finish_reason == 4`. -/
def geminiRecitationMsg : String :=
  "Gemini detected potential copyrighted content. This is likely a false positive for handwritten OCR. Try: (1) using a different image section, (2) retrying the request, or (3) using a different LLM provider (e.g., --api claude-sonnet)."

/-- The error message the Google adapter raises for `finish_reason == 3`. -/
def geminiSafetyMsg : String :=
  "Gemini blocked the response due to safety filters. Try using a different LLM provider (e.g., --api claude-sonnet)."

/-- The error message the Google adapter raises for any other abnormal
finish reason. -/
def geminiStopMsg (fr : Nat) : String :=
  "Gemini stopped generation with finish_reason=" ++ toString fr ++
    ". Try using a different LLM provider (e.g., --api claude-sonnet)."

/-- Model of `GoogleProvider.transcribe_image`: one `generate_content` call; the
`finish_reason` of the first candidate is inspected before the text is returned
(4 and 3 raise dedicated `ProviderAPIError`s, any value other than 0 or 1
raises a generic one); other exceptions are wrapped, while a
`ProviderAPIError` raised by the adapter itself is re-raised unchanged. -/
def google_transcribe_image (bk : String → Img → Except PyErr GResp)
    (img : Img) (prompt : String) : List (String × Img) × Except PyErr String :=
  ([(prompt, img)],
   match bk prompt img with
   | .error e => .error (.apiError ("Google API error: " ++ errStr e))
   | .ok resp =>
     match resp.candidates with
     | [] => .ok resp.text
     | fr :: _ =>
       if fr = 4 then .error (.apiError geminiRecitationMsg)
       else if fr = 3 then .error (.apiError geminiSafetyMsg)
       else if fr ≠ 0 ∧ fr ≠ 1 then .error (.apiError (geminiStopMsg fr))
       else .ok resp.text)

/-- The sequential loop of `VisionProvider.transcribe_images_batch` (the
base-class default): one `transcribe_image` call per image, aborting on the
first error. -/
def googleBatchGo (bk : String → Img → Except PyErr GResp) (prompt : String) :
    List Img → List (String × Img) × Except PyErr (List String)
  | [] => ([], .ok [])
  | img :: rest =>
    match google_transcribe_image bk img prompt with
    | (c, .error e) => (c, .error e)
    | (c, .ok t) =>
      match googleBatchGo bk prompt rest with
      | (cs, rs) => (c ++ cs, rs.map (fun l => t :: l))

/-- The `transcribe_images_batch` of `GoogleProvider`: the class defines none, so
the inherited base-class default runs — sequential per-image calls whose
results are joined with blank lines. -/
def google_transcribe_images_batch (bk : String → Img → Except PyErr GResp)
    (imgs : List Img) (prompt : String) : List (String × Img) × Except PyErr String :=
  match googleBatchGo bk prompt imgs with
  | (c, r) => (c, r.map (joinSep "\n\n"))

/-! ### `cli/transcribe.py` and `sources/factory.py` — option collapsing -/

/-- Model of `factory.is_multipage_format` on the lower-cased file extension. -/
def is_multipage_format (ext : String) : Bool :=
  ext == ".note" || ext == ".pdf"

/-- The effective batch size computed by `transcribe_file`: a requested
batch size above 1 is silently replaced by 1 for single-image formats. -/
def effectiveBatchSize (ext : String) (requested : Int) : Int :=
  if ¬ is_multipage_format ext ∧ 1 < requested then 1 else requested

/-- The effective page-separator flag computed by `transcribe_file`: forced
off for single-image formats. -/
def effectivePageSeparator (ext : String) (flag : Bool) : Bool :=
  if is_multipage_format ext then flag else false

/-- The extensions `sources/factory.py` maps to the single-image handler. -/
def singlePageExts : List String := [".png", ".jpg", ".jpeg", ".webp"]

/-! ### Helper lemmas -/

instance {ε α : Type} [DecidableEq ε] [DecidableEq α] : DecidableEq (Except ε α) := fun x y =>
  match x, y with
  | .ok a, .ok b =>
    if h : a = b then isTrue (by rw [h]) else isFalse (by intro hh; cases hh; exact h rfl)
  | .ok _, .error _ => isFalse (fun hh => Except.noConfusion hh)
  | .error _, .ok _ => isFalse (fun hh => Except.noConfusion hh)
  | .error a, .error b =>
    if h : a = b then isTrue (by rw [h]) else isFalse (by intro hh; cases hh; exact h rfl)

theorem renderBlocks_false_rest (bs : List (String × List Nat)) :
    ∀ t : String, t ++ renderBlocks false false bs = joinSep "\n\n" (t :: bs.map Prod.fst) := by
  induction bs with
  | nil => intro t; simp [renderBlocks, joinSep]
  | cons b rest ih =>
    intro t
    obtain ⟨u, ns⟩ := b
    simp only [List.map_cons, joinSep]
    rw [← ih u]
    simp [renderBlocks]
    simp [String.append_assoc]

theorem renderBlocks_false (bs : List (String × List Nat)) :
    renderBlocks false true bs = joinSep "\n\n" (bs.map Prod.fst) := by
  cases bs with
  | nil => rfl
  | cons b rest =>
    obtain ⟨u, ns⟩ := b
    have h := renderBlocks_false_rest rest u
    simp only [List.map_cons]
    rw [← h]
    simp [renderBlocks]

theorem renderSingles_false_rest (parts : List String) :
    ∀ (t : String) (i : Nat), 2 ≤ i →
      t ++ renderSingles false i parts = joinSep "\n\n" (t :: parts) := by
  induction parts with
  | nil => intro t i _; simp [renderSingles, joinSep]
  | cons u rest ih =>
    intro t i hi
    simp only [joinSep]
    rw [← ih u (i + 1) (by omega)]
    simp [renderSingles, if_pos (show 1 < i by omega)]
    simp [String.append_assoc]

theorem renderSingles_false (parts : List String) :
    renderSingles false 1 parts = joinSep "\n\n" parts := by
  cases parts with
  | nil => rfl
  | cons u rest =>
    have h := renderSingles_false_rest rest u 2 (by omega)
    rw [← h]
    simp [renderSingles]

/-! ### Claim theorems -/

/-- C10: calling `transcribe_images` on an empty image list raises a
`ValueError` from validation before any provider call is made — the call
trace is empty — for every batch size, page-separator flag, plain-text
flag, provider, and in both sink modes. -/
theorem c10_theorem :
    ∀ (p : Provider) (k : Nat) (pageSep plain : Bool),
      transcribe_images_str p k pageSep plain []
          = ([], .error (.valueError "No images provided for processing"))
        ∧ transcribe_images_stream p k pageSep plain []
          = ([], .error (.valueError "No images provided for processing")) := by
  intro p k pageSep plain
  exact ⟨rfl, rfl⟩

/-- C8: constructing a `TranscriptionConfig` with temperature outside
[0.0, 2.0] or batch size below 1 raises a `ValueError` and produces no
instance; every successfully constructed instance satisfies the invariants
and carries exactly the requested values — nothing is clamped. -/
theorem c8_theorem :
    ∀ (t : ℚ) (ps : Bool) (ap : String) (bs : Int),
      ((t < 0 ∨ 2 < t ∨ bs < 1) → ∃ e, mkTranscriptionConfig t ps ap bs = .error e)
        ∧ ∀ c, mkTranscriptionConfig t ps ap bs = .ok c →
            0 ≤ c.temperature ∧ c.temperature ≤ 2 ∧ 1 ≤ c.batch_size
              ∧ c.temperature = t ∧ c.page_separator = ps
              ∧ c.additional_prompt = ap ∧ c.batch_size = bs := by
  intro t ps ap bs
  constructor
  · intro h
    unfold mkTranscriptionConfig
    by_cases h1 : 0 ≤ t ∧ t ≤ 2
    · have hbs : bs < 1 := by
        rcases h with h | h | h
        · exact absurd h1.1 (not_le.mpr h)
        · exact absurd h1.2 (not_le.mpr h)
        · exact h
      rw [if_neg (by simpa using h1), if_pos hbs]
      exact ⟨_, rfl⟩
    · rw [if_pos h1]
      exact ⟨_, rfl⟩
  · intro c hc
    unfold mkTranscriptionConfig at hc
    by_cases h1 : 0 ≤ t ∧ t ≤ 2
    · by_cases h2 : bs < 1
      · rw [if_neg (by simpa using h1), if_pos h2] at hc
        exact absurd hc (by simp)
      · rw [if_neg (by simpa using h1), if_neg h2] at hc
        obtain rfl : (⟨t, ps, ap, bs⟩ : TranscriptionConfig) = c := by
          simpa using hc
        exact ⟨h1.1, h1.2, by show (1 : Int) ≤ bs; omega, rfl, rfl, rfl, rfl⟩
    · rw [if_pos h1] at hc
      exact absurd hc (by simp)

/-- C8 witness: temperature 2.5 and batch size 0 each fail construction,
and a valid construction yields an instance with the requested values. -/
theorem c8_witness :
    (∃ e, mkTranscriptionConfig (5 / 2) false "" 3 = .error e)
      ∧ (∃ e, mkTranscriptionConfig (1 / 5) false "" 0 = .error e)
      ∧ ∀ c, mkTranscriptionConfig (1 / 5) true "x" 2 = .ok c →
          0 ≤ c.temperature ∧ c.temperature ≤ 2 ∧ 1 ≤ c.batch_size
            ∧ c.temperature = 1 / 5 ∧ c.page_separator = true
            ∧ c.additional_prompt = "x" ∧ c.batch_size = 2 :=
  ⟨(c8_theorem (5 / 2) false "" 3).1 (Or.inr (Or.inl (by norm_num))),
   (c8_theorem (1 / 5) false "" 0).1 (Or.inr (Or.inr (by norm_num))),
   (c8_theorem (1 / 5) true "x" 2).2⟩

/-- C1 (corrected): the two sink modes make identical provider calls in
identical order, and the string sink ignores the page-separator flag
entirely; with the page separator disabled, the stream-sink output is
exactly the string-sink output followed by one trailing newline.  The two
modes are therefore not byte-identical in general: the string sink emits
neither marker lines nor the trailing newline. -/
theorem c1_theorem :
    ∀ (p : Provider) (k : Nat) (pageSep plain : Bool) (images : List Img),
      transcribe_images_str p k pageSep plain images
          = transcribe_images_str p k false plain images
        ∧ (transcribe_images_stream p k pageSep plain images).1
          = (transcribe_images_str p k pageSep plain images).1
        ∧ (transcribe_images_stream p k false plain images).2
          = ((transcribe_images_str p k false plain images).2).map (fun t => t ++ "\n") := by
  intro p k pageSep plain images
  refine ⟨rfl, ?_, ?_⟩
  · unfold transcribe_images_stream transcribe_images_str
    cases validate_images images with
    | error e => rfl
    | ok u =>
      by_cases hk : 1 < k
      · simp only [if_pos hk]
      · simp only [if_neg hk]
  · unfold transcribe_images_stream transcribe_images_str
    cases validate_images images with
    | error e => rfl
    | ok u =>
      by_cases hk : 1 < k
      · simp only [if_pos hk]
        obtain ⟨c, r⟩ := processGroups p plain (batchGroups k images)
        cases r with
        | error e => rfl
        | ok bs => simp [Except.map, renderBlocks_false]
      · simp only [if_neg hk]
        obtain ⟨c, r⟩ := singlePagesParts p plain images
        cases r with
        | error e => rfl
        | ok parts => simp [Except.map, renderSingles_false]

/-- C1 counterexample: with a provider answering "a" and "b" on a two-page
document, batch size 1 and page separators enabled, the string sink returns
"a\n\nb" while the stream sink writes marker lines and a trailing newline —
the two sink modes are not byte-identical. -/
theorem c1_counterexample :
    (transcribe_images_str
        ⟨fun i => .ok (if i.width = 1 then "a" else "b"), fun _ => .error (.apiError "x")⟩
        1 true false [⟨1, 1⟩, ⟨2, 1⟩]).2
      ≠ (transcribe_images_stream
        ⟨fun i => .ok (if i.width = 1 then "a" else "b"), fun _ => .error (.apiError "x")⟩
        1 true false [⟨1, 1⟩, ⟨2, 1⟩]).2 := by
  decide

/-! ### Partition lemmas for the batching loop -/

theorem chunkListGo_nil {α : Type} (k : Nat) :
    ∀ fuel, chunkListGo (α := α) k fuel [] = [] := by
  intro fuel; cases fuel <;> rfl

theorem chunkListGo_fuel {α : Type} {k : Nat} (hk : 1 ≤ k) :
    ∀ (f1 f2 : Nat) (l : List α), l.length ≤ f1 → l.length ≤ f2 →
      chunkListGo k f1 l = chunkListGo k f2 l := by
  intro f1
  induction f1 with
  | zero =>
    intro f2 l h1 h2
    obtain rfl : l = [] := List.length_eq_zero.mp (Nat.le_zero.mp h1)
    simp [chunkListGo_nil]
  | succ f ih =>
    intro f2 l h1 h2
    cases l with
    | nil => simp [chunkListGo_nil]
    | cons a as =>
      cases f2 with
      | zero => simp at h2
      | succ f2' =>
        simp only [chunkListGo]
        congr 1
        apply ih
        · simp only [List.length_drop, List.length_cons]
          simp only [List.length_cons] at h1
          omega
        · simp only [List.length_drop, List.length_cons]
          simp only [List.length_cons] at h2
          omega

theorem chunkList_nil {α : Type} (k : Nat) : chunkList (α := α) k [] = [] := rfl

theorem chunkList_cons {α : Type} {k : Nat} (hk : 1 ≤ k) (l : List α) (h : l ≠ []) :
    chunkList k l = l.take k :: chunkList k (l.drop k) := by
  cases l with
  | nil => exact absurd rfl h
  | cons a as =>
    simp only [chunkList, List.length_cons, chunkListGo]
    congr 1
    apply chunkListGo_fuel hk
    · simp only [List.length_drop, List.length_cons]; omega
    · exact le_refl _

theorem chunkList_ne_nil {α : Type} {k : Nat} (hk : 1 ≤ k) (l : List α) (h : l ≠ []) :
    chunkList k l ≠ [] := by
  rw [chunkList_cons hk l h]
  simp

theorem chunkList_flatten {α : Type} {k : Nat} (hk : 1 ≤ k) :
    ∀ (n : Nat) (l : List α), l.length ≤ n → (chunkList k l).flatten = l := by
  intro n
  induction n with
  | zero =>
    intro l h
    obtain rfl : l = [] := List.length_eq_zero.mp (Nat.le_zero.mp h)
    rfl
  | succ n ih =>
    intro l h
    by_cases hl : l = []
    · subst hl; rfl
    · rw [chunkList_cons hk l hl, List.flatten_cons,
        ih (l.drop k) (by simp only [List.length_drop]; have := List.length_pos.mpr hl; omega)]
      exact List.take_append_drop k l

theorem chunkList_length {α : Type} {k : Nat} (hk : 1 ≤ k) :
    ∀ (n : Nat) (l : List α), l.length ≤ n →
      (chunkList k l).length = (l.length + k - 1) / k := by
  intro n
  induction n with
  | zero =>
    intro l h
    obtain rfl : l = [] := List.length_eq_zero.mp (Nat.le_zero.mp h)
    simp [chunkList_nil, Nat.div_eq_of_lt (show k - 1 < k by omega)]
  | succ n ih =>
    intro l h
    by_cases hl : l = []
    · subst hl
      simp [chunkList_nil, Nat.div_eq_of_lt (show k - 1 < k by omega)]
    · rw [chunkList_cons hk l hl]
      have hpos : 1 ≤ l.length := List.length_pos.mpr hl
      have hdlen : (l.drop k).length = l.length - k := List.length_drop k l
      have hrec := ih (l.drop k) (by rw [hdlen]; omega)
      rw [List.length_cons, hrec, hdlen]
      rcases Nat.le_total k l.length with hlk | hlk
      · have e1 : l.length - k + k - 1 = l.length - 1 := by omega
        have e2 : l.length + k - 1 = l.length - 1 + k := by omega
        rw [e1, e2, Nat.add_div_right _ (show 0 < k by omega)]
      · have e1 : l.length - k + k - 1 = k - 1 := by omega
        have e2 : l.length + k - 1 = l.length - 1 + k := by omega
        rw [e1, e2, Nat.add_div_right _ (show 0 < k by omega),
          Nat.div_eq_of_lt (show k - 1 < k by omega),
          Nat.div_eq_of_lt (show l.length - 1 < k by omega)]

theorem chunkList_sizes {α : Type} {k : Nat} (hk : 1 ≤ k) :
    ∀ (n : Nat) (l : List α), l.length ≤ n →
      ∀ g ∈ chunkList k l, 1 ≤ g.length ∧ g.length ≤ k := by
  intro n
  induction n with
  | zero =>
    intro l h g hg
    obtain rfl : l = [] := List.length_eq_zero.mp (Nat.le_zero.mp h)
    simp [chunkList_nil] at hg
  | succ n ih =>
    intro l h g hg
    by_cases hl : l = []
    · subst hl; simp [chunkList_nil] at hg
    · rw [chunkList_cons hk l hl] at hg
      rcases List.mem_cons.mp hg with hg | hg
      · subst hg
        have hpos : 1 ≤ l.length := List.length_pos.mpr hl
        simp only [List.length_take]
        omega
      · exact ih (l.drop k)
          (by simp only [List.length_drop]; have := List.length_pos.mpr hl; omega) g hg

theorem chunkList_dropLast {α : Type} {k : Nat} (hk : 1 ≤ k) :
    ∀ (n : Nat) (l : List α), l.length ≤ n →
      ∀ g ∈ (chunkList k l).dropLast, g.length = k := by
  intro n
  induction n with
  | zero =>
    intro l h g hg
    obtain rfl : l = [] := List.length_eq_zero.mp (Nat.le_zero.mp h)
    simp [chunkList_nil] at hg
  | succ n ih =>
    intro l h g hg
    by_cases hl : l = []
    · subst hl; simp [chunkList_nil] at hg
    · rw [chunkList_cons hk l hl] at hg
      rcases hrest : chunkList k (l.drop k) with _ | ⟨r, rs⟩
      · rw [hrest] at hg; simp at hg
      · rw [hrest] at hg
        have hdrop_ne : l.drop k ≠ [] := by
          intro hd
          rw [hd, chunkList_nil] at hrest
          exact List.noConfusion hrest
        have hklen : k < l.length := by
          by_contra hc
          exact hdrop_ne (List.drop_eq_nil_of_le (by omega))
        rw [List.dropLast_cons_of_ne_nil (by simp)] at hg
        rcases List.mem_cons.mp hg with hg | hg
        · subst hg
          simp only [List.length_take]
          omega
        · rw [← hrest] at hg
          exact ih (l.drop k)
            (by simp only [List.length_drop]; have := List.length_pos.mpr hl; omega) g hg

theorem chunkList_zip_len {α β : Type} {k : Nat} (hk : 1 ≤ k) :
    ∀ (n : Nat) (l1 : List α) (l2 : List β), l1.length = l2.length → l1.length ≤ n →
      ∀ pr ∈ (chunkList k l1).zip (chunkList k l2), pr.1.length = pr.2.length := by
  intro n
  induction n with
  | zero =>
    intro l1 l2 heq h pr hpr
    obtain rfl : l1 = [] := List.length_eq_zero.mp (Nat.le_zero.mp h)
    simp [chunkList_nil] at hpr
  | succ n ih =>
    intro l1 l2 heq h pr hpr
    by_cases hl : l1 = []
    · subst hl; simp [chunkList_nil] at hpr
    · have hl2 : l2 ≠ [] := by
        intro h2; rw [h2] at heq; simp at heq; exact hl heq
      rw [chunkList_cons hk l1 hl, chunkList_cons hk l2 hl2, List.zip_cons_cons] at hpr
      rcases List.mem_cons.mp hpr with hpr | hpr
      · subst hpr
        simp only [List.length_take]
        omega
      · have hpos : 1 ≤ l1.length := List.length_pos.mpr hl
        exact ih (l1.drop k) (l2.drop k)
          (by simp only [List.length_drop]; omega)
          (by simp only [List.length_drop]; omega) pr hpr

theorem batchGroups_lengths {k : Nat} (hk : 1 ≤ k) (images : List Img) :
    (chunkList k images).length = (chunkList k (List.range' 1 images.length)).length := by
  rw [chunkList_length hk images.length images (le_refl _),
    chunkList_length hk images.length (List.range' 1 images.length) (by simp)]
  simp

/-- C3: for every page sequence of length N ≥ 1 and batch size k ≥ 1, the
partition made by the engine consists of exactly ⌈N/k⌉ contiguous groups in page
order — flattening the image groups restores the input and flattening the
page-number ranges yields exactly [1..N] — with every group except
possibly the last of size exactly k, every group nonempty and of size at
most k, and each page range exactly as long as its group. -/
theorem c3_theorem :
    ∀ (images : List Img) (k : Nat), 1 ≤ images.length → 1 ≤ k →
      (batchGroups k images).length = (images.length + k - 1) / k
        ∧ ((batchGroups k images).map Prod.fst).flatten = images
        ∧ ((batchGroups k images).map Prod.snd).flatten = List.range' 1 images.length
        ∧ (∀ gp ∈ (batchGroups k images).dropLast, gp.1.length = k)
        ∧ (∀ gp ∈ batchGroups k images,
            1 ≤ gp.1.length ∧ gp.1.length ≤ k ∧ gp.2.length = gp.1.length) := by
  intro images k hN hk
  have hlen := batchGroups_lengths hk images
  have hfst : (batchGroups k images).map Prod.fst = chunkList k images :=
    List.map_fst_zip _ _ (le_of_eq hlen)
  have hsnd : (batchGroups k images).map Prod.snd = chunkList k (List.range' 1 images.length) :=
    List.map_snd_zip _ _ (le_of_eq hlen.symm)
  refine ⟨?_, ?_, ?_, ?_, ?_⟩
  · unfold batchGroups
    rw [List.length_zip, ← hlen, Nat.min_self,
      chunkList_length hk images.length images (le_refl _)]
  · rw [hfst, chunkList_flatten hk images.length images (le_refl _)]
  · rw [hsnd, chunkList_flatten hk images.length (List.range' 1 images.length) (by simp)]
  · intro gp hgp
    have h1 : gp.1 ∈ ((batchGroups k images).map Prod.fst).dropLast := by
      rw [← List.map_dropLast]
      exact List.mem_map_of_mem Prod.fst hgp
    rw [hfst] at h1
    exact chunkList_dropLast hk images.length images (le_refl _) gp.1 h1
  · intro gp hgp
    obtain ⟨a, b⟩ := gp
    have hmem := List.of_mem_zip hgp
    refine ⟨(chunkList_sizes hk images.length images (le_refl _) a hmem.1).1,
      (chunkList_sizes hk images.length images (le_refl _) a hmem.1).2, ?_⟩
    exact (chunkList_zip_len hk images.length images (List.range' 1 images.length)
      (by simp) (le_refl _) (a, b) hgp).symm

/-- C3 witness: five pages with batch size 2 split into the groups
([1,2],[3,4],[5]) — three groups, page ranges 1-2, 3-4, 5. -/
theorem c3_witness :
    1 ≤ ([⟨1, 1⟩, ⟨2, 1⟩, ⟨3, 1⟩, ⟨4, 1⟩, ⟨5, 1⟩] : List Img).length ∧ 1 ≤ 2
      ∧ ((batchGroups 2 [⟨1, 1⟩, ⟨2, 1⟩, ⟨3, 1⟩, ⟨4, 1⟩, ⟨5, 1⟩]).length
            = (([⟨1, 1⟩, ⟨2, 1⟩, ⟨3, 1⟩, ⟨4, 1⟩, ⟨5, 1⟩] : List Img).length + 2 - 1) / 2
          ∧ ((batchGroups 2 [⟨1, 1⟩, ⟨2, 1⟩, ⟨3, 1⟩, ⟨4, 1⟩, ⟨5, 1⟩]).map Prod.fst).flatten
            = [⟨1, 1⟩, ⟨2, 1⟩, ⟨3, 1⟩, ⟨4, 1⟩, ⟨5, 1⟩]
          ∧ ((batchGroups 2 [⟨1, 1⟩, ⟨2, 1⟩, ⟨3, 1⟩, ⟨4, 1⟩, ⟨5, 1⟩]).map Prod.snd).flatten
            = List.range' 1 ([⟨1, 1⟩, ⟨2, 1⟩, ⟨3, 1⟩, ⟨4, 1⟩, ⟨5, 1⟩] : List Img).length
          ∧ (∀ gp ∈ (batchGroups 2 [⟨1, 1⟩, ⟨2, 1⟩, ⟨3, 1⟩, ⟨4, 1⟩, ⟨5, 1⟩]).dropLast,
              gp.1.length = 2)
          ∧ (∀ gp ∈ batchGroups 2 [⟨1, 1⟩, ⟨2, 1⟩, ⟨3, 1⟩, ⟨4, 1⟩, ⟨5, 1⟩],
              1 ≤ gp.1.length ∧ gp.1.length ≤ 2 ∧ gp.2.length = gp.1.length)) :=
  ⟨by decide, by decide,
   c3_theorem [⟨1, 1⟩, ⟨2, 1⟩, ⟨3, 1⟩, ⟨4, 1⟩, ⟨5, 1⟩] 2 (by decide) (by decide)⟩

/-! ### Fallback-path lemmas -/

theorem transcribe_batch_multi (p : Provider) (imgs : List Img) (h : 2 ≤ imgs.length) :
    transcribe_batch p imgs
      = ([Call.batch imgs], (p.batch imgs).map strip_markdown_code_blocks) := by
  cases imgs with
  | nil => simp at h
  | cons a as =>
    cases as with
    | nil => simp at h
    | cons b bs => rfl

theorem fallback_ok (p : Provider) (f : Img → String) :
    ∀ (imgs : List Img) (pnums : List Nat), imgs.length ≤ pnums.length →
      (∀ i ∈ imgs, p.single i = .ok (f i)) →
      transcribe_batch_fallback p imgs pnums
        = (imgs.map Call.single,
           .ok (imgs.map (fun i => pyStrip (strip_markdown_code_blocks (f i))))) := by
  intro imgs
  induction imgs with
  | nil => intro pnums _ _; rfl
  | cons i is ih =>
    intro pnums h hall
    cases pnums with
    | nil => simp at h
    | cons n ns =>
      have hi := hall i (List.mem_cons_self i is)
      have hrec := ih ns (by simp only [List.length_cons] at h ⊢; omega)
        (fun j hj => hall j (List.mem_cons_of_mem i hj))
      simp [transcribe_batch_fallback, transcribe_single_page, hi, Except.map, hrec]

theorem fallback_error (p : Provider) :
    ∀ (pre : List Img) (i : Img) (post : List Img) (pnums : List Nat) (es : PyErr),
      (∀ j ∈ pre, ∃ t, p.single j = .ok t) → p.single i = .error es →
      (pre ++ i :: post).length ≤ pnums.length →
      (transcribe_batch_fallback p (pre ++ i :: post) pnums).2 = .error es := by
  intro pre
  induction pre with
  | nil =>
    intro i post pnums es _ hi hlen
    cases pnums with
    | nil => simp at hlen
    | cons n ns =>
      simp [transcribe_batch_fallback, transcribe_single_page, hi, Except.map]
  | cons a pre ih =>
    intro i post pnums es hpre hi hlen
    cases pnums with
    | nil => simp at hlen
    | cons n ns =>
      obtain ⟨t, ht⟩ := hpre a (List.mem_cons_self a pre)
      have hrec := ih i post ns es
        (fun j hj => hpre j (List.mem_cons_of_mem a hj)) hi
        (by simp only [List.cons_append, List.length_cons] at hlen ⊢; omega)
      rcases hfb : transcribe_batch_fallback p (pre ++ i :: post) ns with ⟨cs, rs⟩
      rw [hfb] at hrec
      simp only at hrec
      simp [transcribe_batch_fallback, transcribe_single_page, ht, Except.map, hfb, hrec]

theorem processGroup_fallback (p : Provider) (imgs : List Img) (pnums : List Nat)
    (e : PyErr) (h2 : 2 ≤ imgs.length) (hb : p.batch imgs = .error e) :
    processGroup p imgs pnums
      = (Call.batch imgs :: (transcribe_batch_fallback p imgs pnums).1,
         ((transcribe_batch_fallback p imgs pnums).2).map (joinSep "\n\n")) := by
  unfold processGroup
  rw [transcribe_batch_multi p imgs h2, hb]
  rcases hfb : transcribe_batch_fallback p imgs pnums with ⟨c2, r2⟩
  simp [Except.map]

theorem validateImagesGo_ok :
    ∀ (l : List Img) (s : Nat), (∀ i ∈ l, 0 < i.width ∧ 0 < i.height) →
      validateImagesGo s l = .ok () := by
  intro l
  induction l with
  | nil => intro s _; rfl
  | cons a as ih =>
    intro s hl
    have ha := hl a (List.mem_cons_self a as)
    simp only [validateImagesGo]
    rw [if_neg (by simp only [Bool.or_eq_true, decide_eq_true_eq]; push_neg; omega)]
    exact ih (s + 1) (fun j hj => hl j (List.mem_cons_of_mem a hj))

theorem validate_images_ok (imgs : List Img) (hne : imgs ≠ [])
    (h : ∀ i ∈ imgs, 0 < i.width ∧ 0 < i.height) : validate_images imgs = .ok () := by
  unfold validate_images
  rw [if_neg (by simpa using hne)]
  exact validateImagesGo_ok imgs 0 h

theorem chunkList_all {α : Type} {k : Nat} (hk : 1 ≤ k) (l : List α)
    (hne : l ≠ []) (h : l.length ≤ k) : chunkList k l = [l] := by
  rw [chunkList_cons hk l hne, List.take_of_length_le h, List.drop_eq_nil_of_le h,
    chunkList_nil]

theorem batchGroups_self (imgs : List Img) (hne : imgs ≠ []) :
    batchGroups imgs.length imgs = [(imgs, List.range' 1 imgs.length)] := by
  have hk : 1 ≤ imgs.length := List.length_pos.mpr hne
  unfold batchGroups
  rw [chunkList_all hk imgs hne (le_refl _),
    chunkList_all hk (List.range' 1 imgs.length)
      (by simp only [ne_eq, List.range'_eq_nil]; omega) (by simp)]
  rfl

/-- C4: the engine never abandons a group whose batch provider call raised:
it retries each image of the group individually through the single-page
call (the trace shows the batch call followed by one single call per image),
joins the per-page results with a blank line, and processes the remaining
groups exactly as before; an error raised inside the single-page fallback
is not caught again and propagates out of `transcribe_images` in both sink
modes. -/
theorem c4_theorem :
    ∀ (p : Provider) (imgs : List Img) (pnums : List Nat) (e : PyErr),
      2 ≤ imgs.length → imgs.length ≤ pnums.length → p.batch imgs = .error e →
      (∀ f : Img → String, (∀ i ∈ imgs, p.single i = .ok (f i)) →
         processGroup p imgs pnums
           = (Call.batch imgs :: imgs.map Call.single,
              .ok (joinSep "\n\n"
                (imgs.map (fun i => pyStrip (strip_markdown_code_blocks (f i))))))
         ∧ ∀ (plain : Bool) (rest : List (List Img × List Nat)),
             (processGroups p plain ((imgs, pnums) :: rest)).2
               = ((processGroups p plain rest).2).map
                   (fun bs => (pyStrip (plainize plain (joinSep "\n\n"
                      (imgs.map (fun i => pyStrip (strip_markdown_code_blocks (f i)))))),
                      pnums) :: bs))
      ∧ (∀ (pre : List Img) (i : Img) (post : List Img) (es : PyErr),
          imgs = pre ++ i :: post →
          (∀ j ∈ pre, ∃ t, p.single j = .ok t) → p.single i = .error es →
          (processGroup p imgs pnums).2 = .error es
            ∧ ∀ (pageSep plain : Bool),
                (∀ im ∈ imgs, 0 < im.width ∧ 0 < im.height) →
                (transcribe_images_str p imgs.length pageSep plain imgs).2 = .error es
                  ∧ (transcribe_images_stream p imgs.length pageSep plain imgs).2
                    = .error es) := by
  intro p imgs pnums e h2 hlen hb
  constructor
  · intro f hall
    have hfb := fallback_ok p f imgs pnums hlen hall
    have hpg : processGroup p imgs pnums
        = (Call.batch imgs :: imgs.map Call.single,
           .ok (joinSep "\n\n"
             (imgs.map (fun i => pyStrip (strip_markdown_code_blocks (f i)))))) := by
      rw [processGroup_fallback p imgs pnums e h2 hb, hfb]
      simp [Except.map]
    refine ⟨hpg, ?_⟩
    intro plain rest
    simp only [processGroups, hpg]
  · intro pre i post es heq hpre hi
    have hne : imgs ≠ [] := by
      intro hn; rw [hn] at h2; simp at h2
    have hfb2 : (transcribe_batch_fallback p imgs pnums).2 = .error es := by
      rw [heq]
      exact fallback_error p pre i post pnums es hpre hi (by rw [← heq]; exact hlen)
    have hpg2 : (processGroup p imgs pnums).2 = .error es := by
      rw [processGroup_fallback p imgs pnums e h2 hb]
      simp [hfb2, Except.map]
    refine ⟨hpg2, ?_⟩
    intro pageSep plain hvalid
    have hv := validate_images_ok imgs hne hvalid
    have hk1 : 1 < imgs.length := by omega
    have hgs := batchGroups_self imgs hne
    have hfb3 : (transcribe_batch_fallback p imgs (List.range' 1 imgs.length)).2
        = .error es := by
      rw [heq]
      exact fallback_error p pre i post (List.range' 1 (pre ++ i :: post).length) es hpre hi
        (by simp)
    have hpg3 : (processGroup p imgs (List.range' 1 imgs.length)).2 = .error es := by
      rw [processGroup_fallback p imgs (List.range' 1 imgs.length) e h2 hb]
      simp [hfb3, Except.map]
    have hgroups : (processGroups p plain (batchGroups imgs.length imgs)).2
        = .error es := by
      rw [hgs]
      simp only [processGroups]
      rcases hpg4 : processGroup p imgs (List.range' 1 imgs.length) with ⟨c4, r4⟩
      rw [hpg4] at hpg3
      simp only at hpg3
      rw [hpg3]
    constructor
    · unfold transcribe_images_str
      rw [hv]
      simp only [if_pos hk1]
      rcases hprs : processGroups p plain (batchGroups imgs.length imgs) with ⟨cg, rg⟩
      rw [hprs] at hgroups
      simp only at hgroups
      simp [hgroups, Except.map]
    · unfold transcribe_images_stream
      rw [hv]
      simp only [if_pos hk1]
      rcases hprs : processGroups p plain (batchGroups imgs.length imgs) with ⟨cg, rg⟩
      rw [hprs] at hgroups
      simp only at hgroups
      simp [hgroups, Except.map]

/-- C4 witness: a two-page group whose batch call fails is retried page by
page — trace `[batch, single, single]` and blank-line-joined result — and a
failing single call inside the fallback propagates out of
`transcribe_images`. -/
theorem c4_witness :
    (2 ≤ ([⟨1, 1⟩, ⟨2, 1⟩] : List Img).length)
      ∧ (([⟨1, 1⟩, ⟨2, 1⟩] : List Img).length ≤ ([1, 2] : List Nat).length)
      ∧ processGroup
          ⟨fun i => .ok (if i.width = 1 then "a" else "b"), fun _ => .error (.apiError "boom")⟩
          [⟨1, 1⟩, ⟨2, 1⟩] [1, 2]
        = (Call.batch [⟨1, 1⟩, ⟨2, 1⟩] :: ([⟨1, 1⟩, ⟨2, 1⟩] : List Img).map Call.single,
           .ok (joinSep "\n\n" (([⟨1, 1⟩, ⟨2, 1⟩] : List Img).map
             (fun i => pyStrip (strip_markdown_code_blocks
               (if i.width = 1 then "a" else "b"))))))
      ∧ (transcribe_images_str
          ⟨fun i => if i.width = 1 then .ok "a" else .error (.apiError "page2down"),
           fun _ => .error (.apiError "boom")⟩
          ([⟨1, 1⟩, ⟨2, 1⟩] : List Img).length false false [⟨1, 1⟩, ⟨2, 1⟩]).2
        = .error (.apiError "page2down") := by
  refine ⟨by decide, by decide, ?_, ?_⟩
  · exact ((c4_theorem
      ⟨fun i => .ok (if i.width = 1 then "a" else "b"), fun _ => .error (.apiError "boom")⟩
      [⟨1, 1⟩, ⟨2, 1⟩] [1, 2] (.apiError "boom") (by decide) (by decide) (by decide)).1
      (fun i => if i.width = 1 then "a" else "b") (by decide)).1
  · exact (((c4_theorem
      ⟨fun i => if i.width = 1 then .ok "a" else .error (.apiError "page2down"),
       fun _ => .error (.apiError "boom")⟩
      [⟨1, 1⟩, ⟨2, 1⟩] [1, 2] (.apiError "boom") (by decide) (by decide) (by decide)).2
      [⟨1, 1⟩] ⟨2, 1⟩ [] (.apiError "page2down") (by decide)
      (by intro j hj; exact ⟨"a", by fin_cases hj; rfl⟩) (by decide)).2
      false false (by decide)).1

/-- C5: code-fence stripping is applied exactly once per provider response,
identically on every code path: for a one-image group, the batch path, the
direct single-page path and the per-page fallback all yield the block
`pyStrip (strip_markdown_code_blocks t)` for the same response `t`; for a
multi-image group whose batch call succeeds with `T`, the group result is
`strip_markdown_code_blocks T` and the emitted block its trim. -/
theorem c5_theorem :
    ∀ (p : Provider),
      (∀ (img : Img) (n : Nat) (t : String), p.single img = .ok t →
        (transcribe_batch p [img]).2 = .ok (strip_markdown_code_blocks t)
          ∧ (transcribe_single_page p img).2 = .ok (strip_markdown_code_blocks t)
          ∧ (transcribe_batch_fallback p [img] [n]).2
            = .ok [pyStrip (strip_markdown_code_blocks t)]
          ∧ (processGroups p false [([img], [n])]).2
            = .ok [(pyStrip (strip_markdown_code_blocks t), [n])]
          ∧ (singlePagesParts p false [img]).2
            = .ok [pyStrip (strip_markdown_code_blocks t)])
      ∧ (∀ (imgs : List Img) (pnums : List Nat) (T : String),
          2 ≤ imgs.length → p.batch imgs = .ok T →
          (processGroup p imgs pnums).2 = .ok (strip_markdown_code_blocks T)
            ∧ (processGroups p false [(imgs, pnums)]).2
              = .ok [(pyStrip (strip_markdown_code_blocks T), pnums)]) := by
  intro p
  constructor
  · intro img n t ht
    refine ⟨?_, ?_, ?_, ?_, ?_⟩
    · simp [transcribe_batch, transcribe_single_page, ht, Except.map]
    · simp [transcribe_single_page, ht, Except.map]
    · simp [transcribe_batch_fallback, transcribe_single_page, ht, Except.map]
    · simp [processGroups, processGroup, transcribe_batch, transcribe_single_page, ht,
        Except.map, plainize, joinSep]
    · simp [singlePagesParts, transcribe_single_page, ht, Except.map, plainize]
  · intro imgs pnums T h2 hT
    have hpg : (processGroup p imgs pnums).2 = .ok (strip_markdown_code_blocks T) := by
      unfold processGroup
      rw [transcribe_batch_multi p imgs h2, hT]
      simp [Except.map]
    refine ⟨hpg, ?_⟩
    simp only [processGroups]
    rcases hpg4 : processGroup p imgs pnums with ⟨c4, r4⟩
    rw [hpg4] at hpg
    simp only at hpg
    rw [hpg]
    simp [plainize, Except.map]

/-- C5 witness: with a provider answering a fenced response on both paths,
every path produces the identical once-stripped block. -/
theorem c5_witness :
    ((transcribe_batch
        ⟨fun _ => .ok "```markdown\nhi\n```", fun _ => .ok "```\nbody\n```"⟩ [⟨1, 1⟩]).2
      = .ok (strip_markdown_code_blocks "```markdown\nhi\n```")
      ∧ (transcribe_single_page
          ⟨fun _ => .ok "```markdown\nhi\n```", fun _ => .ok "```\nbody\n```"⟩ ⟨1, 1⟩).2
        = .ok (strip_markdown_code_blocks "```markdown\nhi\n```")
      ∧ (transcribe_batch_fallback
          ⟨fun _ => .ok "```markdown\nhi\n```", fun _ => .ok "```\nbody\n```"⟩ [⟨1, 1⟩] [7]).2
        = .ok [pyStrip (strip_markdown_code_blocks "```markdown\nhi\n```")]
      ∧ (processGroups
          ⟨fun _ => .ok "```markdown\nhi\n```", fun _ => .ok "```\nbody\n```"⟩
          false [([⟨1, 1⟩], [7])]).2
        = .ok [(pyStrip (strip_markdown_code_blocks "```markdown\nhi\n```"), [7])]
      ∧ (singlePagesParts
          ⟨fun _ => .ok "```markdown\nhi\n```", fun _ => .ok "```\nbody\n```"⟩
          false [⟨1, 1⟩]).2
        = .ok [pyStrip (strip_markdown_code_blocks "```markdown\nhi\n```")])
      ∧ ((processGroup
          ⟨fun _ => .ok "```markdown\nhi\n```", fun _ => .ok "```\nbody\n```"⟩
          [⟨1, 1⟩, ⟨2, 1⟩] [1, 2]).2
        = .ok (strip_markdown_code_blocks "```\nbody\n```")
      ∧ (processGroups
          ⟨fun _ => .ok "```markdown\nhi\n```", fun _ => .ok "```\nbody\n```"⟩
          false [([⟨1, 1⟩, ⟨2, 1⟩], [1, 2])]).2
        = .ok [(pyStrip (strip_markdown_code_blocks "```\nbody\n```"), [1, 2])]) :=
  ⟨(c5_theorem
      ⟨fun _ => .ok "```markdown\nhi\n```", fun _ => .ok "```\nbody\n```"⟩).1
      ⟨1, 1⟩ 7 "```markdown\nhi\n```" rfl,
   (c5_theorem
      ⟨fun _ => .ok "```markdown\nhi\n```", fun _ => .ok "```\nbody\n```"⟩).2
      [⟨1, 1⟩, ⟨2, 1⟩] [1, 2] "```\nbody\n```" (by decide) rfl⟩

/-! ### Adapter claims -/

/-- C2 (corrected): Anthropic and Ollama implement
`transcribe_images_batch` as exactly one backend call carrying all the
images in order; Google defines no override and inherits the base-class
default, which issues one backend call per image sequentially and joins
the per-image results with blank lines. -/
theorem c2_theorem :
    (∀ (bk : List ABlock → Except PyErr AResp) (imgs : List Img) (prompt : String),
      ∃ req, (anthropic_transcribe_images_batch bk imgs prompt).1 = [req]
        ∧ req.filterMap ablockImage = imgs)
      ∧ (∀ (bk : OMsg → Except PyErr String) (imgs : List Img) (prompt : String),
          ∃ msg : OMsg, (ollama_transcribe_images_batch bk imgs prompt).1 = [msg]
            ∧ msg.images = imgs ∧ msg.content = prompt)
      ∧ (∀ (bk : String → Img → Except PyErr GResp) (imgs : List Img) (prompt : String)
          (f : Img → String),
          (∀ i ∈ imgs, bk prompt i = .ok ⟨[1], f i⟩) →
          (google_transcribe_images_batch bk imgs prompt).1
              = imgs.map (fun i => (prompt, i))
            ∧ (google_transcribe_images_batch bk imgs prompt).2
              = .ok (joinSep "\n\n" (imgs.map f))) := by
  refine ⟨?_, ?_, ?_⟩
  · intro bk imgs prompt
    refine ⟨ABlock.text prompt :: imgs.map ABlock.image, rfl, ?_⟩
    have aux : ∀ l : List Img, (l.map ABlock.image).filterMap ablockImage = l := by
      intro l
      induction l with
      | nil => rfl
      | cons a as ih => simp [List.filterMap_cons, ablockImage, ih]
    simp [List.filterMap_cons, ablockImage, aux]
  · intro bk imgs prompt
    exact ⟨⟨prompt, imgs⟩, rfl, rfl, rfl⟩
  · intro bk imgs prompt f hall
    have hgo : ∀ (l : List Img), (∀ i ∈ l, bk prompt i = .ok ⟨[1], f i⟩) →
        googleBatchGo bk prompt l = (l.map (fun i => (prompt, i)), .ok (l.map f)) := by
      intro l
      induction l with
      | nil => intro _; rfl
      | cons a as ih =>
        intro hl
        have ha := hl a (List.mem_cons_self a as)
        have hrec := ih (fun j hj => hl j (List.mem_cons_of_mem a hj))
        simp [googleBatchGo, google_transcribe_image, ha, hrec, Except.map]
    have h := hgo imgs hall
    unfold google_transcribe_images_batch
    rw [h]
    simp [Except.map]

/-- C2 counterexample: on a two-image list, the inherited
`transcribe_images_batch` of `GoogleProvider` makes two backend calls (one per image) and joins
the results with a blank line, instead of a single multi-image call. -/
theorem c2_counterexample :
    (google_transcribe_images_batch
        (fun _ i => .ok ⟨[1], if i.width = 1 then "a" else "b"⟩)
        [⟨1, 1⟩, ⟨2, 1⟩] "p")
      = ([("p", ⟨1, 1⟩), ("p", ⟨2, 1⟩)], .ok "a\n\nb")
      ∧ ([("p", (⟨1, 1⟩ : Img)), ("p", ⟨2, 1⟩)] : List (String × Img)).length ≠ 1 := by
  exact ⟨rfl, by decide⟩

/-- C2 witness: concrete instantiation of the single-call shapes and of the
Google sequential fallback. -/
theorem c2_witness :
    (∃ req, (anthropic_transcribe_images_batch
        (fun _ => .ok ⟨["r"], "end_turn"⟩) [⟨1, 1⟩, ⟨2, 1⟩] "p").1 = [req]
        ∧ req.filterMap ablockImage = [⟨1, 1⟩, ⟨2, 1⟩])
      ∧ (∃ msg : OMsg, (ollama_transcribe_images_batch
          (fun _ => .ok "r") [⟨1, 1⟩, ⟨2, 1⟩] "p").1 = [msg]
          ∧ msg.images = [⟨1, 1⟩, ⟨2, 1⟩] ∧ msg.content = "p")
      ∧ ((google_transcribe_images_batch
          (fun _ i => .ok ⟨[1], if i.width = 1 then "x" else "y"⟩)
          [⟨1, 1⟩, ⟨2, 1⟩] "p").1
            = ([⟨1, 1⟩, ⟨2, 1⟩] : List Img).map (fun i => ("p", i))
        ∧ (google_transcribe_images_batch
          (fun _ i => .ok ⟨[1], if i.width = 1 then "x" else "y"⟩)
          [⟨1, 1⟩, ⟨2, 1⟩] "p").2
            = .ok (joinSep "\n\n" (([⟨1, 1⟩, ⟨2, 1⟩] : List Img).map
                (fun i => if i.width = 1 then "x" else "y")))) :=
  ⟨c2_theorem.1 (fun _ => .ok ⟨["r"], "end_turn"⟩) [⟨1, 1⟩, ⟨2, 1⟩] "p",
   c2_theorem.2.1 (fun _ => .ok "r") [⟨1, 1⟩, ⟨2, 1⟩] "p",
   c2_theorem.2.2 (fun _ i => .ok ⟨[1], if i.width = 1 then "x" else "y"⟩)
     [⟨1, 1⟩, ⟨2, 1⟩] "p" (fun i => if i.width = 1 then "x" else "y")
     (by intro i hi; fin_cases hi <;> rfl)⟩

/-- C6 (corrected): only the Google adapter inspects stop metadata — any
first-candidate finish reason other than 0 (unspecified) or 1 (normal stop)
raises a `ProviderAPIError` whose message identifies the reason, and the
text is never returned; the Anthropic adapter never reads `stop_reason` and
returns the first content block as success whatever the stop reason is. -/
theorem c6_theorem :
    (∀ (bk : String → Img → Except PyErr GResp) (img : Img) (prompt : String)
      (resp : GResp) (fr : Nat) (rest : List Nat),
      bk prompt img = .ok resp → resp.candidates = fr :: rest → fr ≠ 0 → fr ≠ 1 →
      (google_transcribe_image bk img prompt).2
          = .error (.apiError
              (if fr = 4 then geminiRecitationMsg
               else if fr = 3 then geminiSafetyMsg
               else geminiStopMsg fr))
        ∧ ∀ t, (google_transcribe_image bk img prompt).2 ≠ .ok t)
      ∧ (∀ (bk : List ABlock → Except PyErr AResp) (img : Img) (prompt : String)
          (resp : AResp) (t : String) (ts : List String),
          bk [ABlock.text prompt, ABlock.image img] = .ok resp →
          resp.content = t :: ts →
          (anthropic_transcribe_image bk img prompt).2 = .ok t) := by
  constructor
  · intro bk img prompt resp fr rest hbk hc h0 h1
    have hmain : (google_transcribe_image bk img prompt).2
        = .error (.apiError
            (if fr = 4 then geminiRecitationMsg
             else if fr = 3 then geminiSafetyMsg
             else geminiStopMsg fr)) := by
      unfold google_transcribe_image
      rw [hbk]
      simp only [hc]
      by_cases h4 : fr = 4
      · simp [h4]
      · by_cases h3 : fr = 3
        · simp [h3]
        · rw [if_neg h4, if_neg h3, if_pos ⟨h0, h1⟩]
          simp [h4, h3]
    refine ⟨hmain, ?_⟩
    intro t ht
    rw [hmain] at ht
    exact Except.noConfusion ht
  · intro bk img prompt resp t ts hbk hc
    unfold anthropic_transcribe_image anthropicHandle
    simp [hbk, hc]

/-- C6 counterexample: the Anthropic adapter returns the (possibly
truncated) text "trunc" as a success result even though the stop reason
of the response is "max_tokens", not a normal completion. -/
theorem c6_counterexample :
    (anthropic_transcribe_image
        (fun _ => .ok ⟨["trunc"], "max_tokens"⟩) ⟨100, 100⟩ "p").2
      = .ok "trunc"
      ∧ ("max_tokens" : String) ≠ "end_turn" := by
  exact ⟨rfl, by decide⟩

/-- C6 witness: Gemini finish reasons 3 (safety), 4 (recitation) and 2
(max tokens) each raise the documented error and never return text;
Anthropic returns the first content block unconditionally. -/
theorem c6_witness :
    ((google_transcribe_image (fun _ _ => .ok ⟨[3], "blocked"⟩) ⟨1, 1⟩ "p").2
        = .error (.apiError geminiSafetyMsg)
      ∧ (google_transcribe_image (fun _ _ => .ok ⟨[4], "blocked"⟩) ⟨1, 1⟩ "p").2
        = .error (.apiError geminiRecitationMsg)
      ∧ (google_transcribe_image (fun _ _ => .ok ⟨[2], "cut"⟩) ⟨1, 1⟩ "p").2
        = .error (.apiError (geminiStopMsg 2))
      ∧ (∀ t, (google_transcribe_image (fun _ _ => .ok ⟨[3], "blocked"⟩) ⟨1, 1⟩ "p").2
          ≠ .ok t))
      ∧ (anthropic_transcribe_image
          (fun _ => .ok ⟨["fine"], "end_turn"⟩) ⟨1, 1⟩ "p").2 = .ok "fine" := by
  refine ⟨⟨?_, ?_, ?_, ?_⟩, ?_⟩
  · exact (c6_theorem.1 (fun _ _ => .ok ⟨[3], "blocked"⟩) ⟨1, 1⟩ "p"
      ⟨[3], "blocked"⟩ 3 [] rfl rfl (by decide) (by decide)).1
  · exact (c6_theorem.1 (fun _ _ => .ok ⟨[4], "blocked"⟩) ⟨1, 1⟩ "p"
      ⟨[4], "blocked"⟩ 4 [] rfl rfl (by decide) (by decide)).1
  · exact (c6_theorem.1 (fun _ _ => .ok ⟨[2], "cut"⟩) ⟨1, 1⟩ "p"
      ⟨[2], "cut"⟩ 2 [] rfl rfl (by decide) (by decide)).1
  · exact (c6_theorem.1 (fun _ _ => .ok ⟨[3], "blocked"⟩) ⟨1, 1⟩ "p"
      ⟨[3], "blocked"⟩ 3 [] rfl rfl (by decide) (by decide)).2
  · exact c6_theorem.2 (fun _ => .ok ⟨["fine"], "end_turn"⟩) ⟨1, 1⟩ "p"
      ⟨["fine"], "end_turn"⟩ "fine" [] rfl rfl

/-! ### CLI option collapsing -/

/-- C9 (corrected): for a single-page-format input and any requested batch
size of at least 1, `transcribe_file` silently collapses the effective
batch size to 1 and forces the page separator off, the resulting
configuration constructs without error, and the transcription output
contains no marker — it is exactly the single trimmed block plus the final
newline, produced by exactly one single-page provider call.  (A requested
batch size below 1 is not collapsed and instead fails configuration
validation.) -/
theorem c9_theorem :
    ∀ (ext : String) (r : Int) (flag : Bool),
      ext ∈ singlePageExts → 1 ≤ r →
      effectiveBatchSize ext r = 1
        ∧ effectivePageSeparator ext flag = false
        ∧ (∀ (t : ℚ) (ap : String), 0 ≤ t → t ≤ 2 →
            mkTranscriptionConfig t (effectivePageSeparator ext flag) ap
                (effectiveBatchSize ext r)
              = .ok ⟨t, false, ap, 1⟩)
        ∧ (∀ (p : Provider) (img : Img) (resp : String) (plain : Bool),
            0 < img.width → 0 < img.height → p.single img = .ok resp →
            transcribe_images_stream p (effectiveBatchSize ext r).toNat
                (effectivePageSeparator ext flag) plain [img]
              = ([Call.single img],
                 .ok (pyStrip (plainize plain (strip_markdown_code_blocks resp)) ++ "\n"))) := by
  intro ext r flag hext hr
  have hmp : is_multipage_format ext = false := by
    simp only [singlePageExts, List.mem_cons, List.mem_singleton] at hext
    rcases hext with rfl | rfl | rfl | rfl | h
    · rfl
    · rfl
    · rfl
    · rfl
    · simp at h
  have hbs : effectiveBatchSize ext r = 1 := by
    unfold effectiveBatchSize
    rcases lt_or_le 1 r with h1 | h1
    · rw [if_pos ⟨by simp [hmp], h1⟩]
    · have : r = 1 := by omega
      rw [this]
      simp
  have hps : effectivePageSeparator ext flag = false := by
    unfold effectivePageSeparator
    rw [hmp]
    simp
  refine ⟨hbs, hps, ?_, ?_⟩
  · intro t ap h0 h2
    rw [hbs, hps]
    unfold mkTranscriptionConfig
    rw [if_neg (by push_neg; exact ⟨h0, h2⟩), if_neg (by omega)]
  · intro p img resp plain hw hh hresp
    rw [hbs, hps]
    have hv : validate_images [img] = .ok () :=
      validate_images_ok [img] (by simp)
        (by intro i hi; rw [List.mem_singleton] at hi; subst hi; exact ⟨hw, hh⟩)
    unfold transcribe_images_stream
    rw [hv]
    simp only [Int.toNat_one, if_neg (by omega : ¬ 1 < 1)]
    simp [singlePagesParts, transcribe_single_page, hresp, Except.map, renderSingles]

/-- C9 counterexample: a requested batch size of 0 on a .png input is not
forced to 1 — it stays 0 and configuration construction raises a
`ValueError` — so the collapse does not hold "regardless of the requested
batch size". -/
theorem c9_counterexample :
    effectiveBatchSize ".png" 0 ≠ 1
      ∧ mkTranscriptionConfig (1 / 5) false "" (effectiveBatchSize ".png" 0)
        = .error (.valueError "Batch size must be at least 1, got 0") := by
  constructor
  · decide
  · have h : effectiveBatchSize ".png" 0 = 0 := by decide
    rw [h]
    unfold mkTranscriptionConfig
    rw [if_neg (by push_neg; norm_num), if_pos (by norm_num)]
    rfl

/-- C9 witness: a .png input with requested batch size 5 and the separator
flag raised is collapsed to batch size 1 with no separator, validates, and
produces marker-free output from one provider call. -/
theorem c9_witness :
    (".png" ∈ singlePageExts ∧ (1 : Int) ≤ 5)
      ∧ (effectiveBatchSize ".png" 5 = 1
        ∧ effectivePageSeparator ".png" true = false
        ∧ (∀ (t : ℚ) (ap : String), 0 ≤ t → t ≤ 2 →
            mkTranscriptionConfig t (effectivePageSeparator ".png" true) ap
                (effectiveBatchSize ".png" 5)
              = .ok ⟨t, false, ap, 1⟩)
        ∧ (∀ (p : Provider) (img : Img) (resp : String) (plain : Bool),
            0 < img.width → 0 < img.height → p.single img = .ok resp →
            transcribe_images_stream p (effectiveBatchSize ".png" 5).toNat
                (effectivePageSeparator ".png" true) plain [img]
              = ([Call.single img],
                 .ok (pyStrip (plainize plain (strip_markdown_code_blocks resp)) ++ "\n")))) :=
  ⟨⟨by decide, by decide⟩, c9_theorem ".png" 5 true (by decide) (by decide)⟩


/-! ### Paired-delimiter removal lemmas (for C7) -/

theorem subPairsGo_nil (ds : List (List Char)) : ∀ fuel, subPairsGo ds fuel [] = [] := by
  intro fuel; cases fuel <;> rfl

theorem findClose_found {dc : Char} {dt : List Char} :
    ∀ (x b : List Char), dc ∉ x → '\n' ∉ x →
      findClose (dc :: dt) (x ++ (dc :: (dt ++ b))) = some (x, b) := by
  intro x
  induction x with
  | nil =>
    intro b hx _
    simp only [List.nil_append, findClose]
    rw [if_pos]
    · congr 1
      rw [show dc :: (dt ++ b) = (dc :: dt) ++ b from rfl]
      simp [List.drop_left]
    · rw [show dc :: (dt ++ b) = (dc :: dt) ++ b from rfl]
      exact List.isPrefixOf_iff_prefix.mpr (List.prefix_append _ _)
  | cons c x' ih =>
    intro b hx hnl
    have hc : ¬ (dc = c) := fun h => hx (by rw [h]; exact List.mem_cons_self c x')
    have hcnl : ¬ (c = '\n') := fun h => hnl (by rw [← h]; exact List.mem_cons_self c x')
    simp only [List.cons_append, findClose]
    rw [if_neg (by simp [List.isPrefixOf, hc]), if_neg hcnl]
    simp only [List.append_eq]
    rw [ih b (fun h => hx (List.mem_cons_of_mem c h))
      (fun h => hnl (List.mem_cons_of_mem c h))]

theorem find1_skip {c : Char} (hc : c ≠ '=') (rest : List Char) :
    [['=', '=']].find? (fun d => d.isPrefixOf (c :: rest)) = none := by
  simp [List.find?, List.isPrefixOf, beq_eq_false_iff_ne.mpr (Ne.symm hc)]

theorem find2_skip {c : Char} (hc1 : c ≠ '*') (hc2 : c ≠ '_') (rest : List Char) :
    [['*', '*'], ['_', '_']].find? (fun d => d.isPrefixOf (c :: rest)) = none := by
  simp [List.find?, List.isPrefixOf, beq_eq_false_iff_ne.mpr (Ne.symm hc1),
    beq_eq_false_iff_ne.mpr (Ne.symm hc2)]

theorem find3_skip {c : Char} (hc1 : c ≠ '*') (hc2 : c ≠ '_') (rest : List Char) :
    [['*'], ['_']].find? (fun d => d.isPrefixOf (c :: rest)) = none := by
  simp [List.find?, List.isPrefixOf, beq_eq_false_iff_ne.mpr (Ne.symm hc1),
    beq_eq_false_iff_ne.mpr (Ne.symm hc2)]

theorem find1_hit (rest : List Char) :
    [['=', '=']].find? (fun d => d.isPrefixOf ('=' :: (['='] ++ rest))) = some ['=', '='] := by
  simp [List.find?, List.isPrefixOf]

theorem find2_hit_star (rest : List Char) :
    [['*', '*'], ['_', '_']].find? (fun d => d.isPrefixOf ('*' :: (['*'] ++ rest)))
      = some ['*', '*'] := by
  simp [List.find?, List.isPrefixOf]

theorem find2_hit_und (rest : List Char) :
    [['*', '*'], ['_', '_']].find? (fun d => d.isPrefixOf ('_' :: (['_'] ++ rest)))
      = some ['_', '_'] := by
  simp [List.find?, List.isPrefixOf]

theorem find3_hit_star (rest : List Char) :
    [['*'], ['_']].find? (fun d => d.isPrefixOf ('*' :: ([] ++ rest))) = some ['*'] := by
  simp [List.find?, List.isPrefixOf]

theorem find3_hit_und (rest : List Char) :
    [['*'], ['_']].find? (fun d => d.isPrefixOf ('_' :: ([] ++ rest))) = some ['_'] := by
  simp [List.find?, List.isPrefixOf]

theorem subPairsGo_skip (ds : List (List Char)) :
    ∀ (a : List Char),
      (∀ c ∈ a, ∀ rest : List Char, ds.find? (fun d => d.isPrefixOf (c :: rest)) = none) →
      ∀ (fuel : Nat) (r : List Char), a.length ≤ fuel →
        subPairsGo ds fuel (a ++ r) = a ++ subPairsGo ds (fuel - a.length) r := by
  intro a
  induction a with
  | nil => intro _ fuel r _; simp
  | cons c a' ih =>
    intro ha fuel r h
    cases fuel with
    | zero => simp at h
    | succ f =>
      simp only [List.cons_append, subPairsGo, List.append_eq]
      rw [ha c (List.mem_cons_self c a') (a' ++ r)]
      rw [ih (fun c' hc' => ha c' (List.mem_cons_of_mem c hc')) f r
        (by simp only [List.length_cons] at h; omega)]
      simp only [List.length_cons, Nat.succ_sub_succ, List.cons_append]

theorem subPairsGo_id (ds : List (List Char)) (b : List Char)
    (hb : ∀ c ∈ b, ∀ rest : List Char, ds.find? (fun d => d.isPrefixOf (c :: rest)) = none) :
    ∀ fuel, b.length ≤ fuel → subPairsGo ds fuel b = b := by
  intro fuel h
  have := subPairsGo_skip ds b hb fuel [] h
  rw [List.append_nil, subPairsGo_nil, List.append_nil] at this
  exact this

theorem subPairs_id (ds : List (List Char)) (b : List Char)
    (hb : ∀ c ∈ b, ∀ rest : List Char, ds.find? (fun d => d.isPrefixOf (c :: rest)) = none) :
    subPairs ds b = b :=
  subPairsGo_id ds b hb b.length (le_refl _)

theorem subPairsGo_strip (ds : List (List Char)) (dc : Char) (dt : List Char)
    (s b : List Char) (hs : dc ∉ s) (hsnl : '\n' ∉ s)
    (hb : ∀ c ∈ b, ∀ rest : List Char, ds.find? (fun d => d.isPrefixOf (c :: rest)) = none)
    (hfind : ∀ rest : List Char,
      ds.find? (fun d' => d'.isPrefixOf (dc :: (dt ++ rest))) = some (dc :: dt)) :
    ∀ fuel, (dc :: dt).length + (s.length + ((dc :: dt).length + b.length)) ≤ fuel →
      subPairsGo ds fuel ((dc :: dt) ++ (s ++ ((dc :: dt) ++ b))) = s ++ b := by
  intro fuel hfuel
  cases fuel with
  | zero => simp only [List.length_cons] at hfuel; omega
  | succ f =>
    simp only [List.cons_append, subPairsGo, List.append_eq]
    rw [hfind (s ++ (dc :: (dt ++ b)))]
    have hdrop : (dc :: (dt ++ (s ++ (dc :: (dt ++ b))))).drop (dc :: dt).length
        = s ++ (dc :: (dt ++ b)) := by
      rw [show dc :: (dt ++ (s ++ (dc :: (dt ++ b)))) = (dc :: dt) ++ (s ++ (dc :: (dt ++ b)))
        from rfl]
      exact List.drop_left _ _
    simp only [hdrop, findClose_found s b hs hsnl]
    rw [subPairsGo_id ds b hb f
      (by simp only [List.length_cons] at hfuel; omega)]

theorem subPairs_strip (ds : List (List Char)) (dc : Char) (dt : List Char)
    (s b : List Char) (hs : dc ∉ s) (hsnl : '\n' ∉ s)
    (hb : ∀ c ∈ b, ∀ rest : List Char, ds.find? (fun d => d.isPrefixOf (c :: rest)) = none)
    (hfind : ∀ rest : List Char,
      ds.find? (fun d' => d'.isPrefixOf (dc :: (dt ++ rest))) = some (dc :: dt)) :
    subPairs ds ((dc :: dt) ++ (s ++ ((dc :: dt) ++ b))) = s ++ b := by
  apply subPairsGo_strip ds dc dt s b hs hsnl hb hfind
  simp [List.length_append]
  omega

theorem find2_skip2 {dc c0 : Char} (h1 : c0 ≠ '*') (h2 : c0 ≠ '_') (rest : List Char) :
    [['*', '*'], ['_', '_']].find? (fun d => d.isPrefixOf (dc :: (c0 :: rest))) = none := by
  simp [List.find?, List.isPrefixOf, beq_eq_false_iff_ne.mpr (Ne.symm h1),
    beq_eq_false_iff_ne.mpr (Ne.symm h2)]

theorem find2_nil (dc : Char) :
    [['*', '*'], ['_', '_']].find? (fun d => d.isPrefixOf [dc]) = none := by
  simp [List.find?, List.isPrefixOf]

theorem subPairsGo_one2 (dc : Char) :
    ∀ f, 1 ≤ f → subPairsGo [['*', '*'], ['_', '_']] f [dc] = [dc] := by
  intro f h
  cases f with
  | zero => omega
  | succ g =>
    simp only [subPairsGo]
    rw [find2_nil dc, subPairsGo_nil]

theorem pass2_single_go (dc c0 : Char) (cs' : List Char)
    (hfree : ∀ c ∈ c0 :: cs', c ≠ '*' ∧ c ≠ '_') :
    ∀ fuel, cs'.length + 3 ≤ fuel →
      subPairsGo [['*', '*'], ['_', '_']] fuel (dc :: ((c0 :: cs') ++ [dc]))
        = dc :: ((c0 :: cs') ++ [dc]) := by
  intro fuel h
  cases fuel with
  | zero => omega
  | succ f =>
    have h0 := hfree c0 (List.mem_cons_self c0 cs')
    simp only [List.cons_append, List.append_eq, subPairsGo]
    rw [find2_skip2 h0.1 h0.2 (cs' ++ [dc])]
    have hskip := subPairsGo_skip [['*', '*'], ['_', '_']] (c0 :: cs')
      (fun c hc rest => find2_skip (hfree c hc).1 (hfree c hc).2 rest) f [dc]
      (by simp only [List.length_cons]; omega)
    simp only [List.cons_append, List.append_eq] at hskip
    rw [hskip]
    rw [subPairsGo_one2 dc (f - (c0 :: cs').length) (by simp only [List.length_cons]; omega)]

theorem pass2_single (dc c0 : Char) (cs' : List Char)
    (hfree : ∀ c ∈ c0 :: cs', c ≠ '*' ∧ c ≠ '_') :
    subPairs [['*', '*'], ['_', '_']] (dc :: ((c0 :: cs') ++ [dc]))
      = dc :: ((c0 :: cs') ++ [dc]) := by
  apply pass2_single_go dc c0 cs' hfree
  simp [List.length_append]

theorem not_mem_wrap {x : Char} {sd : List Char} (hx : x ∉ sd) {pre post : List Char}
    (hpre : x ∉ pre) (hpost : x ∉ post) : x ∉ pre ++ (sd ++ post) := by
  intro h
  rcases List.mem_append.mp h with h | h
  · exact hpre h
  · rcases List.mem_append.mp h with h | h
    · exact hx h
    · exact hpost h

/-- The delimiter-free side condition of the amended C7: no character of the
string is one of the three delimiter characters. -/
def delimFree (s : String) : Prop := ∀ c ∈ s.data, c ≠ '*' ∧ c ≠ '_' ∧ c ≠ '='


/-- C7 (corrected): on delimiter-free text, `strip_markdown_formatting`
leaves the text unchanged, and — when the text holds no newline, since the
substitution patterns are compiled without `re.DOTALL` and the inner
`(.*?)` cannot cross one — removes each of the five delimiter pairs
wrapping it (highlight, both bold forms, both italic forms).  A highlight
or italic pair whose inner text spans a newline is left intact, while a
bold pair spanning one is still removed because the italic pass consumes
each `**`/`__` as an empty italic pair.  The idempotence part of the claim
is false — see the counterexample. -/
theorem c7_theorem :
    ∀ s : String, s ≠ "" → delimFree s → '\n' ∉ s.data →
      (strip_markdown_formatting s = s
        ∧ strip_markdown_formatting ("==" ++ s ++ "==") = s
        ∧ strip_markdown_formatting ("**" ++ s ++ "**") = s
        ∧ strip_markdown_formatting ("__" ++ s ++ "__") = s
        ∧ strip_markdown_formatting ("*" ++ s ++ "*") = s
        ∧ strip_markdown_formatting ("_" ++ s ++ "_") = s)
        ∧ (strip_markdown_formatting "==a\nb==" = "==a\nb=="
          ∧ strip_markdown_formatting "*a\nb*" = "*a\nb*"
          ∧ strip_markdown_formatting "_a\nb_" = "_a\nb_"
          ∧ strip_markdown_formatting "**a\nb**" = "a\nb"
          ∧ strip_markdown_formatting "__a\nb__" = "a\nb") := by
  intro s hne hfree hnl
  refine ⟨?_, by decide, by decide, by decide, by decide, by decide⟩
  obtain ⟨c0, cs', hsd⟩ : ∃ c0 cs', s.data = c0 :: cs' := by
    rcases hs : s.data with _ | ⟨c0, cs'⟩
    · exact absurd (by apply String.ext; rw [hs]) hne
    · exact ⟨c0, cs', rfl⟩
  have hd1 : ∀ c ∈ s.data, ∀ rest : List Char,
      [['=', '=']].find? (fun d => d.isPrefixOf (c :: rest)) = none :=
    fun c hc rest => find1_skip (hfree c hc).2.2 rest
  have hd2 : ∀ c ∈ s.data, ∀ rest : List Char,
      [['*', '*'], ['_', '_']].find? (fun d => d.isPrefixOf (c :: rest)) = none :=
    fun c hc rest => find2_skip (hfree c hc).1 (hfree c hc).2.1 rest
  have hd3 : ∀ c ∈ s.data, ∀ rest : List Char,
      [['*'], ['_']].find? (fun d => d.isPrefixOf (c :: rest)) = none :=
    fun c hc rest => find3_skip (hfree c hc).1 (hfree c hc).2.1 rest
  have hnostar : '*' ∉ s.data := fun h => (hfree '*' h).1 rfl
  have hnound : '_' ∉ s.data := fun h => (hfree '_' h).2.1 rfl
  have hnoeq : '=' ∉ s.data := fun h => (hfree '=' h).2.2 rfl
  have hbnil : ∀ (ds : List (List Char)), ∀ c ∈ ([] : List Char), ∀ rest : List Char,
      ds.find? (fun d => d.isPrefixOf (c :: rest)) = none := by
    intro ds c hc; simp at hc
  refine ⟨?_, ?_, ?_, ?_, ?_, ?_⟩
  · unfold strip_markdown_formatting
    rw [subPairs_id _ _ hd1]
    rw [subPairs_id _ _ hd2]
    rw [subPairs_id _ _ hd3]
  · unfold strip_markdown_formatting
    have hdata : ("==" ++ s ++ "==").data = '=' :: '=' :: (s.data ++ ['=', '=']) := by
      simp [String.data_append, show ("==" : String).data = ['=', '='] from rfl]
    rw [hdata]
    have hstrip := subPairs_strip [['=', '=']] '=' ['='] s.data [] hnoeq hnl (hbnil _)
      (fun rest => find1_hit rest)
    simp only [List.cons_append, List.nil_append, List.append_nil] at hstrip
    rw [hstrip, subPairs_id _ _ hd2, subPairs_id _ _ hd3]
  · unfold strip_markdown_formatting
    have hdata : ("**" ++ s ++ "**").data = '*' :: '*' :: (s.data ++ ['*', '*']) := by
      simp [String.data_append, show ("**" : String).data = ['*', '*'] from rfl]
    rw [hdata]
    have hall1 : ∀ c ∈ ('*' :: '*' :: (s.data ++ ['*', '*'])), ∀ rest : List Char,
        [['=', '=']].find? (fun d => d.isPrefixOf (c :: rest)) = none := by
      intro c hc rest
      refine find1_skip (fun hceq => ?_) rest
      subst hceq
      exact @not_mem_wrap '=' s.data hnoeq ['*', '*'] ['*', '*'] (by decide) (by decide) hc
    rw [subPairs_id _ _ hall1]
    have hstrip := subPairs_strip [['*', '*'], ['_', '_']] '*' ['*'] s.data []
      hnostar hnl (hbnil _) (fun rest => find2_hit_star rest)
    simp only [List.cons_append, List.nil_append, List.append_nil] at hstrip
    rw [hstrip, subPairs_id _ _ hd3]
  · unfold strip_markdown_formatting
    have hdata : ("__" ++ s ++ "__").data = '_' :: '_' :: (s.data ++ ['_', '_']) := by
      simp [String.data_append, show ("__" : String).data = ['_', '_'] from rfl]
    rw [hdata]
    have hall1 : ∀ c ∈ ('_' :: '_' :: (s.data ++ ['_', '_'])), ∀ rest : List Char,
        [['=', '=']].find? (fun d => d.isPrefixOf (c :: rest)) = none := by
      intro c hc rest
      refine find1_skip (fun hceq => ?_) rest
      subst hceq
      exact @not_mem_wrap '=' s.data hnoeq ['_', '_'] ['_', '_'] (by decide) (by decide) hc
    rw [subPairs_id _ _ hall1]
    have hstrip := subPairs_strip [['*', '*'], ['_', '_']] '_' ['_'] s.data []
      hnound hnl (hbnil _) (fun rest => find2_hit_und rest)
    simp only [List.cons_append, List.nil_append, List.append_nil] at hstrip
    rw [hstrip, subPairs_id _ _ hd3]
  · unfold strip_markdown_formatting
    have hdata : ("*" ++ s ++ "*").data = '*' :: c0 :: (cs' ++ ['*']) := by
      simp [String.data_append, show ("*" : String).data = ['*'] from rfl, hsd]
    rw [hdata]
    have hall1 : ∀ c ∈ ('*' :: c0 :: (cs' ++ ['*'])), ∀ rest : List Char,
        [['=', '=']].find? (fun d => d.isPrefixOf (c :: rest)) = none := by
      intro c hc rest
      refine find1_skip (fun hceq => ?_) rest
      subst hceq
      exact @not_mem_wrap '=' (c0 :: cs') (by rw [← hsd]; exact hnoeq) ['*'] ['*']
        (by decide) (by decide) hc
    rw [subPairs_id _ _ hall1]
    have hfree2 : ∀ c ∈ c0 :: cs', c ≠ '*' ∧ c ≠ '_' := by
      intro c hc
      have := hfree c (by rw [hsd]; exact hc)
      exact ⟨this.1, this.2.1⟩
    have hp2 := pass2_single '*' c0 cs' hfree2
    simp only [List.cons_append] at hp2
    rw [hp2]
    have hstrip := subPairs_strip [['*'], ['_']] '*' [] (c0 :: cs') []
      (by rw [← hsd]; exact hnostar) (by rw [← hsd]; exact hnl) (hbnil _)
      (fun rest => find3_hit_star rest)
    simp only [List.cons_append, List.nil_append, List.append_nil] at hstrip
    rw [hstrip, ← hsd]
  · unfold strip_markdown_formatting
    have hdata : ("_" ++ s ++ "_").data = '_' :: c0 :: (cs' ++ ['_']) := by
      simp [String.data_append, show ("_" : String).data = ['_'] from rfl, hsd]
    rw [hdata]
    have hall1 : ∀ c ∈ ('_' :: c0 :: (cs' ++ ['_'])), ∀ rest : List Char,
        [['=', '=']].find? (fun d => d.isPrefixOf (c :: rest)) = none := by
      intro c hc rest
      refine find1_skip (fun hceq => ?_) rest
      subst hceq
      exact @not_mem_wrap '=' (c0 :: cs') (by rw [← hsd]; exact hnoeq) ['_'] ['_']
        (by decide) (by decide) hc
    rw [subPairs_id _ _ hall1]
    have hfree2 : ∀ c ∈ c0 :: cs', c ≠ '*' ∧ c ≠ '_' := by
      intro c hc
      have := hfree c (by rw [hsd]; exact hc)
      exact ⟨this.1, this.2.1⟩
    have hp2 := pass2_single '_' c0 cs' hfree2
    simp only [List.cons_append] at hp2
    rw [hp2]
    have hstrip := subPairs_strip [['*'], ['_']] '_' [] (c0 :: cs') []
      (by rw [← hsd]; exact hnound) (by rw [← hsd]; exact hnl) (hbnil _)
      (fun rest => find3_hit_und rest)
    simp only [List.cons_append, List.nil_append, List.append_nil] at hstrip
    rw [hstrip, ← hsd]

/-- C7 counterexample: `strip_markdown_formatting` is not idempotent — on
the input "*_*_*" the first application yields "__*" and the second "*". -/
theorem c7_counterexample :
    strip_markdown_formatting (strip_markdown_formatting "*_*_*")
      ≠ strip_markdown_formatting "*_*_*" := by
  decide

/-- C7 witness: concrete delimiter-free single-line text "abc". -/
theorem c7_witness :
    (strip_markdown_formatting "abc" = "abc"
      ∧ strip_markdown_formatting ("==" ++ "abc" ++ "==") = "abc"
      ∧ strip_markdown_formatting ("**" ++ "abc" ++ "**") = "abc"
      ∧ strip_markdown_formatting ("__" ++ "abc" ++ "__") = "abc"
      ∧ strip_markdown_formatting ("*" ++ "abc" ++ "*") = "abc"
      ∧ strip_markdown_formatting ("_" ++ "abc" ++ "_") = "abc")
      ∧ (strip_markdown_formatting "==a\nb==" = "==a\nb=="
        ∧ strip_markdown_formatting "*a\nb*" = "*a\nb*"
        ∧ strip_markdown_formatting "_a\nb_" = "_a\nb_"
        ∧ strip_markdown_formatting "**a\nb**" = "a\nb"
        ∧ strip_markdown_formatting "__a\nb__" = "a\nb") :=
  c7_theorem "abc" (by decide) (by unfold delimFree; decide) (by decide)

end SupernoteUtils
